import Mathlib

/-!
Verification of the pokeMarket data pipeline and favorites store.

This file gives a shallow embedding of `pokemarket.py` and proves the
specified properties about it.  Python floats are modelled as exact
rationals (`ℚ`); an absent / NaN float is `Option.none` where the code
distinguishes it.  Machine-level details that the claims do not touch
(binary float rounding, non-finite float literals such as `inf`,
underscores in numeric literals) are outside the model and noted where
relevant.
-/

/-! ### Generic association lists (Python `dict` with insertion order) -/

def alookup {α : Type} : List (String × α) → String → Option α
  | [], _ => Option.none
  | (k, v) :: rest, key => if k = key then some v else alookup rest key

/-- Python `d[key] = v`: replace in place if the key exists, else append. -/
def aset {α : Type} : List (String × α) → String → α → List (String × α)
  | [], key, v => [(key, v)]
  | (k, w) :: rest, key, v =>
      if k = key then (key, v) :: rest else (k, w) :: aset rest key v

theorem alookup_aset_self {α : Type} (l : List (String × α)) (k : String) (v : α) :
    alookup (aset l k v) k = some v := by
  induction l with
  | nil => simp [aset, alookup]
  | cons hd tl ih =>
      obtain ⟨k0, v0⟩ := hd
      by_cases h : k0 = k
      · simp [aset, h, alookup]
      · simp [aset, h, alookup, ih]

theorem alookup_aset_ne {α : Type} (l : List (String × α)) (k k2 : String) (v : α)
    (h : k2 ≠ k) : alookup (aset l k v) k2 = alookup l k2 := by
  have hne : k ≠ k2 := Ne.symm h
  induction l with
  | nil => simp [aset, alookup, hne]
  | cons hd tl ih =>
      obtain ⟨k0, v0⟩ := hd
      by_cases hk : k0 = k
      · subst hk
        simp [aset, alookup, hne]
      · simp only [aset, if_neg hk, alookup]
        by_cases hk2 : k0 = k2
        · simp [hk2]
        · simp [hk2, ih]

/-! ### Digits -/

def digitChar : Nat → Char
  | 0 => '0' | 1 => '1' | 2 => '2' | 3 => '3' | 4 => '4'
  | 5 => '5' | 6 => '6' | 7 => '7' | 8 => '8' | _ => '9'

def digitVal (c : Char) : Nat := c.toNat - 48

/-- Big-endian numeric value of a digit string (how `float` reads digits). -/
def digitsVal (cs : List Char) : Nat := cs.foldl (fun a c => 10 * a + digitVal c) 0

theorem digitChar_isDigit (d : Nat) (h : d < 10) : (digitChar d).isDigit = true := by
  interval_cases d <;> decide

theorem digitVal_digitChar (d : Nat) (h : d < 10) : digitVal (digitChar d) = d := by
  interval_cases d <;> decide

/-- Decimal digits of a natural number, fuel-based so that it reduces in the kernel. -/
def natDigitsAux : Nat → Nat → List Char
  | 0, _ => []
  | fuel + 1, n =>
      if n < 10 then [digitChar n]
      else natDigitsAux fuel (n / 10) ++ [digitChar (n % 10)]

def natDigits (n : Nat) : List Char := natDigitsAux (n + 1) n

theorem digitsVal_append_one (cs : List Char) (c : Char) :
    digitsVal (cs ++ [c]) = 10 * digitsVal cs + digitVal c := by
  simp [digitsVal, List.foldl_append]

theorem natDigitsAux_spec (fuel : Nat) : ∀ n : Nat, n < 10 ^ (fuel + 1) →
    digitsVal (natDigitsAux (fuel + 1) n) = n ∧
      natDigitsAux (fuel + 1) n ≠ [] ∧
      ∀ c ∈ natDigitsAux (fuel + 1) n, c.isDigit = true := by
  induction fuel with
  | zero =>
      intro n h
      have h10 : n < 10 := by simpa using h
      refine ⟨?_, by simp [natDigitsAux, h10], ?_⟩
      · simp [natDigitsAux, h10, digitsVal, digitVal_digitChar n h10]
      · intro c hc
        simp [natDigitsAux, h10] at hc
        subst hc
        exact digitChar_isDigit n h10
  | succ fuel ih =>
      intro n h
      by_cases h10 : n < 10
      · refine ⟨?_, by simp [natDigitsAux, h10], ?_⟩
        · simp [natDigitsAux, h10, digitsVal, digitVal_digitChar n h10]
        · intro c hc
          simp [natDigitsAux, h10] at hc
          subst hc
          exact digitChar_isDigit n h10
      · have hdiv : n / 10 < 10 ^ (fuel + 1) := by
          apply Nat.div_lt_of_lt_mul
          rw [pow_succ] at h
          omega
        obtain ⟨hv, hne, hd⟩ := ih (n / 10) hdiv
        refine ⟨?_, by simp [natDigitsAux, h10], ?_⟩
        · rw [show fuel + 1 + 1 = fuel + 2 from rfl] at *
          rw [natDigitsAux, if_neg h10, digitsVal_append_one, hv,
            digitVal_digitChar _ (Nat.mod_lt _ (by norm_num))]
          omega
        · intro c hc
          rw [show fuel + 1 + 1 = fuel + 2 from rfl] at hc
          rw [natDigitsAux, if_neg h10] at hc
          rcases List.mem_append.mp hc with hc | hc
          · exact hd c hc
          · simp at hc
            subst hc
            exact digitChar_isDigit _ (Nat.mod_lt _ (by norm_num))

theorem natDigits_spec (n : Nat) :
    digitsVal (natDigits n) = n ∧ natDigits n ≠ [] ∧
      ∀ c ∈ natDigits n, c.isDigit = true := by
  have hlt : n < 10 ^ (n + 1) := by
    calc n < 2 ^ n := Nat.lt_two_pow n
      _ ≤ 10 ^ n := Nat.pow_le_pow_left (by norm_num) n
      _ < 10 ^ (n + 1) := Nat.pow_lt_pow_succ (by norm_num)
  exact natDigitsAux_spec n n hlt

/-- Exactly `k` decimal digits of `f`, zero padded on the left. -/
def padDigits : Nat → Nat → List Char
  | 0, _ => []
  | k + 1, f => padDigits k (f / 10) ++ [digitChar (f % 10)]

theorem padDigits_spec (k : Nat) : ∀ f : Nat, f < 10 ^ k →
    digitsVal (padDigits k f) = f ∧ (padDigits k f).length = k ∧
      ∀ c ∈ padDigits k f, c.isDigit = true := by
  induction k with
  | zero => intro f h; simp at h; simp [padDigits, digitsVal, h]
  | succ k ih =>
      intro f h
      have hdiv : f / 10 < 10 ^ k := by
        apply Nat.div_lt_of_lt_mul
        rw [pow_succ] at h
        omega
      obtain ⟨hv, hl, hd⟩ := ih (f / 10) hdiv
      refine ⟨?_, by simp [padDigits, hl], ?_⟩
      · rw [padDigits, digitsVal_append_one, hv,
          digitVal_digitChar _ (Nat.mod_lt _ (by norm_num))]
        omega
      · intro c hc
        rw [padDigits] at hc
        rcases List.mem_append.mp hc with hc | hc
        · exact hd c hc
        · simp at hc
          subst hc
          exact digitChar_isDigit _ (Nat.mod_lt _ (by norm_num))

/-! ### Small string helpers -/

/-- Python `str.strip()` (leading and trailing whitespace removed). -/
def stripWS (cs : List Char) : List Char :=
  ((cs.dropWhile Char.isWhitespace).reverse.dropWhile Char.isWhitespace).reverse

/-- Python `s.replace(",", ".")` at the character level. -/
def commaToDotL (cs : List Char) : List Char :=
  cs.map (fun c => if c = ',' then '.' else c)

theorem stripWS_of_no_ws (cs : List Char) (h : ∀ c ∈ cs, c.isWhitespace = false) :
    stripWS cs = cs := by
  have h1 : cs.dropWhile Char.isWhitespace = cs := by
    cases cs with
    | nil => rfl
    | cons c rest =>
        rw [List.dropWhile_cons, if_neg]
        simp [h c (by simp)]
  rw [stripWS, h1]
  have h2 : cs.reverse.dropWhile Char.isWhitespace = cs.reverse := by
    cases hr : cs.reverse with
    | nil => rfl
    | cons c rest =>
        rw [List.dropWhile_cons, if_neg]
        have : c ∈ cs := by
          have : c ∈ cs.reverse := by rw [hr]; simp
          simpa using this
        simp [h c this]
  rw [h2, List.reverse_reverse]

/-! ### The regex `[-+]?\d*[\.,]?\d+` (module-level `_num_re`)

`matchNum` is the leftmost match attempt at the head of the string with
Python backtracking semantics: optional sign, greedy run of digits, an
optional single `.` or `,` (given back if no digit follows), then a
greedy nonempty run of digits.  It returns the matched token and the
remaining characters. -/

def splitSign (cs : List Char) : List Char × List Char :=
  match cs with
  | c :: rest => if c = '-' ∨ c = '+' then ([c], rest) else ([], cs)
  | [] => ([], [])

def matchTail (sgn d1 s2 : List Char) : Option (List Char × List Char) :=
  match s2 with
  | c :: s3 =>
      if c = '.' ∨ c = ',' then
        let d2 := s3.takeWhile Char.isDigit
        let s4 := s3.dropWhile Char.isDigit
        if d2 = [] then (if d1 = [] then Option.none else some (sgn ++ d1, s2))
        else some (sgn ++ d1 ++ c :: d2, s4)
      else if d1 = [] then Option.none else some (sgn ++ d1, s2)
  | [] => if d1 = [] then Option.none else some (sgn ++ d1, [])

def matchNum (cs : List Char) : Option (List Char × List Char) :=
  let sp := splitSign cs
  matchTail sp.1 (sp.2.takeWhile Char.isDigit) (sp.2.dropWhile Char.isDigit)

theorem length_dropWhile_le (p : Char → Bool) (l : List Char) :
    (l.dropWhile p).length ≤ l.length := by
  have h := congrArg List.length (List.takeWhile_append_dropWhile (p := p) (l := l))
  simp only [List.length_append] at h
  omega

theorem matchTail_rest_le (sgn d1 s2 : List Char) (t r : List Char)
    (h : matchTail sgn d1 s2 = some (t, r)) :
    (r.length ≤ s2.length ∧ (r.length < s2.length ∨ d1 ≠ [])) := by
  match s2 with
  | c :: s3 =>
      rw [matchTail] at h
      by_cases hc : c = '.' ∨ c = ','
      · rw [if_pos hc] at h
        by_cases hd2 : s3.takeWhile Char.isDigit = []
        · rw [if_pos hd2] at h
          by_cases hd1 : d1 = []
          · rw [if_pos hd1] at h; exact absurd h (by simp)
          · rw [if_neg hd1] at h
            simp at h
            obtain ⟨-, hr⟩ := h
            subst hr
            exact ⟨le_refl _, Or.inr hd1⟩
        · rw [if_neg hd2] at h
          simp at h
          obtain ⟨-, hr⟩ := h
          subst hr
          have := length_dropWhile_le Char.isDigit s3
          refine ⟨by simp; omega, Or.inl (by simp; omega)⟩
      · rw [if_neg hc] at h
        by_cases hd1 : d1 = []
        · rw [if_pos hd1] at h; exact absurd h (by simp)
        · rw [if_neg hd1] at h
          simp at h
          obtain ⟨-, hr⟩ := h
          subst hr
          exact ⟨le_refl _, Or.inr hd1⟩
  | [] =>
      rw [matchTail] at h
      by_cases hd1 : d1 = []
      · rw [if_pos hd1] at h; exact absurd h (by simp)
      · rw [if_neg hd1] at h
        simp at h
        obtain ⟨-, hr⟩ := h
        subst hr
        exact ⟨le_refl _, Or.inr hd1⟩

theorem matchNum_rest_lt (cs t r : List Char) (h : matchNum cs = some (t, r)) :
    r.length < cs.length := by
  rw [matchNum] at h
  obtain ⟨hle, hlt⟩ := matchTail_rest_le _ _ _ _ _ h
  have hsplit : (splitSign cs).1.length + (splitSign cs).2.length = cs.length := by
    match cs with
    | [] => simp [splitSign]
    | c :: rest =>
        by_cases hc : c = '-' ∨ c = '+' <;> simp [splitSign, hc] <;> omega
  have htd := congrArg List.length
    (List.takeWhile_append_dropWhile (p := Char.isDigit) (l := (splitSign cs).2))
  simp only [List.length_append] at htd
  rcases hlt with hlt | hne
  · omega
  · have : (splitSign cs).2.takeWhile Char.isDigit ≠ [] := hne
    have hpos : 0 < ((splitSign cs).2.takeWhile Char.isDigit).length := by
      cases hh : (splitSign cs).2.takeWhile Char.isDigit with
      | nil => exact absurd hh this
      | cons a l => simp
    omega

theorem matchNum_nil : matchNum [] = Option.none := by rfl

/-- `re.findall` scan: fuel-based so that it evaluates in the kernel. -/
def findTokensAux : Nat → List Char → List (List Char)
  | 0, _ => []
  | _ + 1, [] => []
  | fuel + 1, c :: rest =>
      match matchNum (c :: rest) with
      | some (t, r) => t :: findTokensAux fuel r
      | Option.none => findTokensAux fuel rest

def findTokens (cs : List Char) : List (List Char) := findTokensAux cs.length cs

theorem findTokensAux_nil (fuel : Nat) : findTokensAux fuel [] = [] := by
  cases fuel with
  | zero => rfl
  | succ fuel => rfl

theorem findTokensAux_congr : ∀ (f1 : Nat) (cs : List Char) (f2 : Nat),
    cs.length ≤ f1 → cs.length ≤ f2 → findTokensAux f1 cs = findTokensAux f2 cs := by
  intro f1
  induction f1 with
  | zero =>
      intro cs f2 h1 _
      have : cs = [] := by
        cases cs with
        | nil => rfl
        | cons a l => simp at h1
      subst this
      rw [findTokensAux_nil, findTokensAux_nil]
  | succ f1 ih =>
      intro cs f2 h1 h2
      cases cs with
      | nil => rw [findTokensAux_nil, findTokensAux_nil]
      | cons c rest =>
          cases f2 with
          | zero => simp at h2
          | succ f2 =>
              cases hm : matchNum (c :: rest) with
              | some tr =>
                  obtain ⟨t, r⟩ := tr
                  have hlt := matchNum_rest_lt _ _ _ hm
                  simp only [findTokensAux, hm]
                  rw [ih r f2 (by simp only [List.length_cons] at hlt h1; omega)
                    (by simp only [List.length_cons] at hlt h2; omega)]
              | none =>
                  simp only [findTokensAux, hm]
                  rw [ih rest f2 (by simp only [List.length_cons] at h1; omega)
                    (by simp only [List.length_cons] at h2; omega)]

theorem findTokens_eq_aux (cs : List Char) (fuel : Nat) (h : cs.length ≤ fuel) :
    findTokens cs = findTokensAux fuel cs :=
  findTokensAux_congr cs.length cs fuel (le_refl _) h

theorem findTokens_match (cs t r : List Char) (h : matchNum cs = some (t, r)) :
    findTokens cs = t :: findTokens r := by
  have hlt := matchNum_rest_lt _ _ _ h
  cases cs with
  | nil => simp at hlt
  | cons c rest =>
      rw [findTokens]
      simp only [List.length_cons, findTokensAux, h]
      congr 1
      rw [findTokens]
      exact (findTokensAux_congr r.length r rest.length (le_refl _)
        (by simp at hlt; omega)).symm

theorem findTokens_nomatch (c : Char) (cs : List Char)
    (h : matchNum (c :: cs) = Option.none) :
    findTokens (c :: cs) = findTokens cs := by
  rw [findTokens]
  simp only [List.length_cons, findTokensAux, h]
  exact (findTokens_eq_aux cs cs.length (le_refl _)).symm

theorem findTokens_nil : findTokens [] = [] := rfl

/-! ### Python `float(str)` on finite decimal/scientific literals

`float("nan")`, `float("inf")` and underscore separators are outside the
model: the model maps every string that does not denote a finite decimal
or scientific literal to `Option.none` (the caller drops the value, which
is also what every claim exercises). -/

def signedVal (neg : Bool) (n : Nat) : Int := if neg then -(n : Int) else (n : Int)

/-- The optional leading sign of a float literal. -/
def splitNegSign (cs : List Char) : Bool × List Char :=
  match cs with
  | c :: rest =>
      if c = '-' then (true, rest)
      else if c = '+' then (false, rest)
      else (false, cs)
  | [] => (false, [])

/-- The optional `.`-prefixed fraction digits of a float literal. -/
def splitFrac (s2 : List Char) : List Char × List Char :=
  match s2 with
  | c :: r =>
      if c = '.' then (r.takeWhile Char.isDigit, r.dropWhile Char.isDigit)
      else ([], s2)
  | [] => ([], [])

def strToFloatChars (cs0 : List Char) : Option ℚ :=
  let cs := stripWS cs0
  let sp := splitNegSign cs
  let s1 := sp.2
  let ip := s1.takeWhile Char.isDigit
  let s2 := s1.dropWhile Char.isDigit
  let fps := splitFrac s2
  let fp := fps.1
  let s3 := fps.2
  if ip = [] ∧ fp = [] then Option.none
  else
    let n0 : Nat := digitsVal ip * 10 ^ fp.length + digitsVal fp
    match s3 with
    | [] => some (mkRat (signedVal sp.1 n0) (10 ^ fp.length))
    | e :: r =>
        if e = 'e' ∨ e = 'E' then
          let esp := splitNegSign r
          let ed := esp.2.takeWhile Char.isDigit
          let r2 := esp.2.dropWhile Char.isDigit
          if ed = [] ∨ r2 ≠ [] then Option.none
          else if esp.1 then
            some (mkRat (signedVal sp.1 n0) (10 ^ fp.length * 10 ^ digitsVal ed))
          else
            some (mkRat (signedVal sp.1 (n0 * 10 ^ digitsVal ed)) (10 ^ fp.length))
        else Option.none

def strToFloat (s : String) : Option ℚ := strToFloatChars s.toList

/-! ### Rendering a rational as a plain decimal string

This represents Python `str` on a finite float, that is the claimed
"string form with `.` as decimal separator".  The number of fractional
digits used is the denominator itself (never minimal, but always exact
for any rational whose denominator divides a power of ten, which covers
every value `parse_price_list` can produce). -/

def renderQChars (q : ℚ) : List Char :=
  let k := q.den
  let m := q.num.natAbs * 10 ^ k / q.den
  (if q.num < 0 then ['-'] else []) ++
    natDigits (m / 10 ^ k) ++ '.' :: padDigits k (m % 10 ^ k)

def renderQ (q : ℚ) : String := String.mk (renderQChars q)

/-- The ", "-separated string form of a float list. -/
def renderList : List ℚ → String
  | [] => ""
  | [q] => renderQ q
  | q :: r :: rest => renderQ q ++ ", " ++ renderList (r :: rest)

/-! ### Python values appearing in spreadsheet cells -/

inductive PyVal : Type
  | none : PyVal
  | nan : PyVal
  | num (q : ℚ) : PyVal
  | str (s : String) : PyVal
  | list (xs : List PyVal) : PyVal

mutual

/-- Python `repr` (what `str` applies to nested list elements). -/
def reprVal : PyVal → String
  | PyVal.none => "None"
  | PyVal.nan => "nan"
  | PyVal.num q => renderQ q
  | PyVal.str s => "\x27" ++ s ++ "\x27"
  | PyVal.list xs => "[" ++ reprJoin xs ++ "]"

def reprJoin : List PyVal → String
  | [] => ""
  | [x] => reprVal x
  | x :: y :: xs => reprVal x ++ ", " ++ reprJoin (y :: xs)

end

/-- Python `str(value)`. -/
def pyStr : PyVal → String
  | PyVal.none => "None"
  | PyVal.nan => "nan"
  | PyVal.num q => renderQ q
  | PyVal.str s => s
  | PyVal.list xs => "[" ++ reprJoin xs ++ "]"

/-- `parse_price_list` from pokemarket.py. -/
def parse_price_list : PyVal → List ℚ
  | PyVal.none => []
  | PyVal.nan => []
  | PyVal.list xs =>
      xs.filterMap (fun x =>
        match x with
        | PyVal.none => Option.none
        | x => strToFloatChars (commaToDotL (pyStr x).toList))
  | v =>
      (findTokens (pyStr v).toList).filterMap
        (fun t => strToFloatChars (commaToDotL t))

/-- `to_float` from pokemarket.py (`Option.none` is the NaN result). -/
def to_float : PyVal → Option ℚ
  | PyVal.none => Option.none
  | v => strToFloatChars (commaToDotL (pyStr v).toList)

/-! ### DataFrame model and the normalizer `load_one_excel`

A source table is a list of named columns of Python cell values plus its
row count (pandas keeps all columns at the row-count length; the model
carries `nrows` = `len(df)` explicitly). -/

def COL_CARD : String := "Carta"
def COL_ID : String := "ID completo"
def COL_LINK : String := "Link"
def COL_5P : String := "Primi 5 Prezzi (IT, NM)"
def COL_MED : String := "Media Prezzi (IT, NM)"

structure DFrame : Type where
  nrows : Nat
  cols : List (String × List PyVal)

def getCol (df : DFrame) (name : String) : Option (List PyVal) :=
  alookup df.cols name

/-- One normalized card row (the columns kept by `load_one_excel`). -/
structure CardRow : Type where
  carta : PyVal
  idCompleto : PyVal
  link : PyVal
  primi5 : PyVal
  media : Option ℚ
  prezziLista : List ℚ
  espansione : String
  cardKey : String

/-- `load_one_excel` from pokemarket.py (after `pd.read_excel` produced `df`). -/
def load_one_excel (df : DFrame) (esp : String) : List CardRow :=
  let n := df.nrows
  let carta := (getCol df COL_CARD).getD
    ((getCol df "Nome").getD ((List.range n).map (fun i => PyVal.str ("Carta " ++ toString i))))
  let ids := (getCol df COL_ID).getD
    ((List.range n).map (fun i => PyVal.str (esp ++ "-" ++ toString i)))
  let links := (getCol df COL_LINK).getD (List.replicate n (PyVal.str ""))
  let p5 := (getCol df COL_5P).getD (List.replicate n (PyVal.str ""))
  let med := (getCol df COL_MED).getD (List.replicate n PyVal.nan)
  (List.range n).map (fun i =>
    let idv := ids.getD i PyVal.none
    let p5v := p5.getD i PyVal.none
    { carta := carta.getD i PyVal.none
      idCompleto := idv
      link := links.getD i PyVal.none
      primi5 := p5v
      media := to_float (med.getD i PyVal.none)
      prezziLista := parse_price_list p5v
      espansione := esp
      cardKey := esp ++ "|" ++ pyStr idv })

/-! ### The aggregator `load_all_data_dynamic` -/

/-- A file on disk: either loadable as a table or raising on load. -/
inductive ExcelFile : Type
  | corrupt (msg : String) : ExcelFile
  | table (df : DFrame) : ExcelFile

/-- The per-file loop of `load_all_data_dynamic`: frames in mapping order,
missing files, and warnings for files whose load raised. -/
def gatherFrames (fs : List (String × ExcelFile)) :
    List (String × String) → List (List CardRow) × List String × List String
  | [] => ([], [], [])
  | (fname, esp) :: rest =>
      let r := gatherFrames fs rest
      match alookup fs fname with
      | some (ExcelFile.table df) => (load_one_excel df esp :: r.1, r.2.1, r.2.2)
      | some (ExcelFile.corrupt msg) =>
          (r.1, r.2.1, ("Errore caricando " ++ fname ++ ": " ++ msg) :: r.2.2)
      | Option.none => (r.1, fname :: r.2.1, r.2.2)

/-- `df.drop_duplicates(subset=["CardKey"])`: keep the first row bearing
each key, in order. -/
def dedupByKey : List CardRow → List String → List CardRow
  | [], _ => []
  | r :: rest, seen =>
      if r.cardKey ∈ seen then dedupByKey rest seen
      else r :: dedupByKey rest (r.cardKey :: seen)

/-- `load_all_data_dynamic` from pokemarket.py: returns the merged table,
the missing-file list and the warnings. -/
def load_all_data_dynamic (fs : List (String × ExcelFile))
    (expansions_map : List (String × String)) :
    List CardRow × List String × List String :=
  let r := gatherFrames fs expansions_map
  if r.1.isEmpty then ([], r.2.1, r.2.2)
  else (dedupByKey r.1.flatten [], r.2.1, r.2.2)

theorem dedupByKey_filter (k : String) : ∀ (l : List CardRow) (seen : List String),
    (dedupByKey l seen).filter (fun r => decide (r.cardKey = k)) =
      if k ∈ seen then [] else (l.find? (fun r => decide (r.cardKey = k))).toList := by
  intro l
  induction l with
  | nil => intro seen; by_cases h : k ∈ seen <;> simp [dedupByKey, h]
  | cons r rest ih =>
      intro seen
      by_cases hr : r.cardKey ∈ seen
      · rw [dedupByKey, if_pos hr, ih seen]
        by_cases hk : k ∈ seen
        · simp [hk]
        · have hne : ¬ r.cardKey = k := fun hh => hk (hh ▸ hr)
          simp [hk, List.find?, hne]
      · rw [dedupByKey, if_neg hr]
        by_cases hk : k ∈ seen
        · have hne : ¬ r.cardKey = k := fun hh => hr (hh ▸ hk)
          rw [List.filter_cons_of_neg (by simp [hne]), ih (r.cardKey :: seen)]
          simp [hk, List.find?, hne]
        · by_cases heq : r.cardKey = k
          · rw [List.filter_cons_of_pos (by simp [heq]), ih (r.cardKey :: seen)]
            have hmem : k ∈ r.cardKey :: seen := by simp [heq]
            rw [if_pos hmem, if_neg hk]
            simp [List.find?, heq]
          · rw [List.filter_cons_of_neg (by simp [heq]), ih (r.cardKey :: seen)]
            have hne2 : ¬ k = r.cardKey := fun hh => heq hh.symm
            have hiff : k ∈ r.cardKey :: seen ↔ k ∈ seen := by simp [hne2]
            rw [if_congr hiff rfl rfl]
            simp [hk, List.find?, heq]

/-! ### Dataset discovery: `prettify_expansion_label`, `discover_expansions` -/

def EXPANSION_NAME_OVERRIDES : List (String × String) :=
  [("Surging Sparks", "Scintille Folgoranti"),
   ("Paradox Rift", "Paradosso Temporale"),
   ("Destined Rivals", "Destini Rivali"),
   ("151", "151"),
   ("Prismatic Evolutions", "Evoluzioni Prismatiche")]

/-- `os.path.basename` (posix): the part after the last slash. -/
def basenameChars (cs : List Char) : List Char :=
  ((cs.reverse.takeWhile (fun c => c ≠ '/')).reverse)

/-- Stem of `os.path.splitext`: cut at the last dot unless every character
before it is a dot (Python skips leading dots of the basename). -/
def splitextStem (cs : List Char) : List Char :=
  let rcs := cs.reverse
  let ext := rcs.takeWhile (fun c => c ≠ '.')
  if ext.length = rcs.length then cs
  else
    let stemR := rcs.drop (ext.length + 1)
    if stemR.all (fun c => c = '.') then cs else stemR.reverse

/-- Case-insensitive literal match at the head; `lit` is given lowercase.
Returns the remaining characters on success. -/
def dropCI : List Char → List Char → Option (List Char)
  | [], cs => some cs
  | _ :: _, [] => Option.none
  | l :: ls, c :: cs => if c.toLower = l then dropCI ls cs else Option.none

/-- Greedy `[_-]?`. -/
def sepSkip (cs : List Char) : List Char :=
  match cs with
  | c :: rest => if c = '_' ∨ c = '-' then rest else cs
  | [] => []

/-- `[_-]?WORD[_-]?` with regex backtracking on the first separator. -/
def tagWord (word : List Char) (r1 : List Char) : Option (List Char) :=
  match r1 with
  | c :: rest =>
      if c = '_' ∨ c = '-' then
        match dropCI word rest with
        | some r => some (sepSkip r)
        | Option.none => (dropCI word r1).map sepSkip
      else (dropCI word r1).map sepSkip
  | [] => (dropCI word []).map sepSkip

/-- `re.sub(r'^(prezzi[_-]?pokemon[_-]?|df[_-]?prezzi[_-]?)', '', base, flags=IGNORECASE)`. -/
def stripExportTag (cs : List Char) : List Char :=
  match (dropCI "prezzi".toList cs).bind (tagWord "pokemon".toList) with
  | some r => r
  | Option.none =>
      match (dropCI "df".toList cs).bind (tagWord "prezzi".toList) with
      | some r => r
      | Option.none => cs

/-- Python `str.title()` restricted to ASCII letters (all inputs here are ASCII). -/
def titleCaseGo : Bool → List Char → List Char
  | _, [] => []
  | prevAlpha, c :: rest =>
      (if c.isAlpha then (if prevAlpha then c.toLower else c.toUpper) else c) ::
        titleCaseGo c.isAlpha rest

def titleCase (cs : List Char) : List Char := titleCaseGo false cs

/-- Naive substring test (`"151" in base`). -/
def isPrefAt : List Char → List Char → Bool
  | [], _ => true
  | _ :: _, [] => false
  | a :: as, b :: bs => a = b && isPrefAt as bs

def hasSub (needle : List Char) : List Char → Bool
  | [] => needle.isEmpty
  | c :: rest => isPrefAt needle (c :: rest) || hasSub needle rest

/-- The label before the Italian override table is consulted (the final
`label_tc` of `prettify_expansion_label`, with the 151 special case). -/
def rawLabel (filename : String) : String :=
  let base := splitextStem (basenameChars filename.toList)
  if hasSub "151".toList base then "151"
  else
    let stem := (stripExportTag base).map (fun c => if c = '_' ∨ c = '-' then ' ' else c)
    let label := stripWS stem
    let label := if label = [] then base else label
    String.mk (titleCase label)

/-- `prettify_expansion_label` from pokemarket.py.  The early return for
"151" bypasses the override lookup in the source; the override table maps
"151" to itself so this is stated faithfully below. -/
def prettify_expansion_label (filename : String) : String :=
  let base := splitextStem (basenameChars filename.toList)
  if hasSub "151".toList base then "151"
  else
    let stem := (stripExportTag base).map (fun c => if c = '_' ∨ c = '-' then ' ' else c)
    let label := stripWS stem
    let label := if label = [] then base else label
    let label_tc := String.mk (titleCase label)
    (alookup EXPANSION_NAME_OVERRIDES label_tc).getD label_tc

/-- Directory state: `FileNotFoundError`, or a listing of names with
`getsize` results (`Option.none` = `OSError`). -/
inductive DirState : Type
  | absent : DirState
  | present (entries : List (String × Option Nat)) : DirState

/-- Python string `<` (code point lexicographic). -/
def lexLe : List Char → List Char → Bool
  | [], _ => true
  | _ :: _, [] => false
  | a :: as, b :: bs => if a = b then lexLe as bs else decide (a.toNat < b.toNat)

def insertSorted (x : String) : List String → List String
  | [] => [x]
  | y :: ys => if lexLe x.toList y.toList then x :: y :: ys else y :: insertSorted x ys

/-- Python `sorted` on strings. -/
def sortStrings (l : List String) : List String := l.foldr insertSorted []

def endsWithXlsx (f : String) : Bool :=
  isPrefAt "xslx.".toList (f.toList.map Char.toLower).reverse

/-- `discover_expansions` from pokemarket.py: mapping, sorted file list,
index signature of (filename, size) with `-1` for unreadable sizes. -/
def discover_expansions (d : DirState) :
    List (String × String) × List String × List (String × Int) :=
  let files : List String :=
    match d with
    | DirState.absent => []
    | DirState.present entries => (entries.map Prod.fst).filter endsWithXlsx
  let files := sortStrings files
  let mapping := files.map (fun f => (f, prettify_expansion_label f))
  let sig := files.map (fun f =>
    (f, match d with
        | DirState.absent => (-1 : Int)
        | DirState.present entries =>
            match alookup entries f with
            | some (some sz) => (sz : Int)
            | some Option.none => (-1 : Int)
            | Option.none => (-1 : Int)))
  (mapping, files, sig)

/-! ### Favorites persistence

JSON values as stored/exchanged documents.  The GitHub content API is
modelled by the observable outcome of one request: HTTP status, the result
of the base64+UTF-8+JSON decode chain of the returned content (with
`Option.none` when any step of that chain raises), the returned `sha`, and
the response text used in warnings. -/

inductive JVal : Type
  | jnull : JVal
  | jbool (b : Bool) : JVal
  | jnum (q : ℚ) : JVal
  | jstr (s : String) : JVal
  | jarr (elems : List JVal) : JVal
  | jobj (fields : List (String × JVal)) : JVal

/-- The document `{"users": {}}`. -/
def usersEmpty : JVal := JVal.jobj [("users", JVal.jobj [])]

/-- Python `obj.get(key, default)`: `Option.none` models the
`AttributeError` raised when `obj` is not a dict. -/
def pyGet (obj : JVal) (key : String) (dflt : JVal) : Option JVal :=
  match obj with
  | JVal.jobj fields => some ((alookup fields key).getD dflt)
  | _ => Option.none

/-- All-strings view of a JSON array. -/
def strList : List JVal → Option (List String)
  | [] => some []
  | JVal.jstr s :: rest => (strList rest).map (fun l => s :: l)
  | _ => Option.none

/-- Python `set(arr)` for an array of strings; other shapes are outside
the model (`set` would iterate them element- or character-wise) and map
to `Option.none`. -/
def setOfJVal : JVal → Option (Finset String)
  | JVal.jarr xs => (strList xs).map List.toFinset
  | _ => Option.none

/-- Local favorites file state as `read_favorites_local` can observe it:
absent, unreadable (open/read raises), holding bytes that are not valid
JSON (json.load raises), or holding a JSON value. -/
inductive LocalFile : Type
  | missing : LocalFile
  | unreadable : LocalFile
  | malformed : LocalFile
  | valid (v : JVal) : LocalFile

/-- `read_favorites_local` from pokemarket.py. -/
def read_favorites_local : LocalFile → JVal
  | LocalFile.missing => usersEmpty
  | LocalFile.unreadable => usersEmpty
  | LocalFile.malformed => usersEmpty
  | LocalFile.valid v => v

/-- `write_favorites_local` from pokemarket.py; `err` is the exception the
write raises, if any (result flag, new file state, warnings). -/
def write_favorites_local (new_obj : JVal) (err : Option String) (lf : LocalFile) :
    (Bool × LocalFile) × List String :=
  match err with
  | Option.none => ((true, LocalFile.valid new_obj), [])
  | some e => ((false, lf), ["Scrittura preferiti locale fallita: " ++ e])

structure GhConfig : Type where
  token : Option String
  repo : Option String
  branch : String
  path : String

/-- Python truthiness of `st.secrets.get(...)`: absent or empty is falsy. -/
def truthy : Option String → Bool
  | Option.none => false
  | some s => !(s == "")

def ghConfigured (cfg : GhConfig) : Bool := truthy cfg.token && truthy cfg.repo

inductive GhGetResult : Type
  | netError (msg : String) : GhGetResult
  | response (status : Nat) (decoded : Option JVal) (sha : String) (text : String) : GhGetResult

/-- `read_favorites_from_github` from pokemarket.py:
`((document?, sha?), warnings)`. -/
def read_favorites_from_github (cfg : GhConfig) (w : GhGetResult) :
    (Option JVal × Option String) × List String :=
  if ghConfigured cfg = false then ((Option.none, Option.none), [])
  else
    match w with
    | GhGetResult.netError msg =>
        ((Option.none, Option.none), ["GitHub GET errore di rete: " ++ msg])
    | GhGetResult.response status decoded sha text =>
        if status = 200 then ((some (decoded.getD usersEmpty), some sha), [])
        else if status = 404 then ((some usersEmpty, Option.none), [])
        else ((Option.none, Option.none),
          ["GitHub GET fallita: " ++ toString status ++ " - " ++ text])

inductive GhPutResult : Type
  | netError (msg : String) : GhPutResult
  | response (status : Nat) (text : String) : GhPutResult

/-- `write_favorites_to_github` from pokemarket.py (the payload carries
`new_obj` and, when present, the sha; only the observable outcome is
modelled). -/
def write_favorites_to_github (cfg : GhConfig) (new_obj : JVal) (old_sha : Option String)
    (w : GhPutResult) : Bool × List String :=
  if ghConfigured cfg = false then (false, [])
  else
    match w with
    | GhPutResult.netError msg => (false, ["GitHub PUT errore di rete: " ++ msg])
    | GhPutResult.response status text =>
        if status = 200 ∨ status = 201 then (true, [])
        else (false, ["GitHub PUT fallita: " ++ toString status ++ " - " ++ text])

/-- The backend handle `(backend_name, obj, sha)`. -/
structure Backend : Type where
  name : String
  obj : Option JVal
  sha : Option String

/-- `set(obj.get("users", {}).get(username, []))`, shared by both branches
of `load_user_favorites`; `Option.none` models a raised exception. -/
def extractFavs (obj : JVal) (username : String) : Option (Finset String) :=
  match pyGet obj "users" (JVal.jobj []) with
  | some users =>
      match pyGet users username (JVal.jarr []) with
      | some arr => setOfJVal arr
      | Option.none => Option.none
  | Option.none => Option.none

/-- `load_user_favorites` from pokemarket.py: the favorites set and the
backend handle, plus the warnings surfaced along the way. -/
def load_user_favorites (username : String) (cfg : GhConfig) (w : GhGetResult)
    (lf : LocalFile) : Option (Finset String × Backend) × List String :=
  let res := read_favorites_from_github cfg w
  match res.1.1 with
  | some obj =>
      (match extractFavs obj username with
       | some s => some (s, ⟨"github", some obj, res.1.2⟩)
       | Option.none => Option.none, res.2)
  | Option.none =>
      let obj := read_favorites_local lf
      (match extractFavs obj username with
       | some s => some (s, ⟨"local", some obj, Option.none⟩)
       | Option.none => Option.none, res.2)

/-- `sorted(list(favorites_set))`. -/
def sortedFavs (s : Finset String) : List String := s.sort (· ≤ ·)

/-- The in-memory document update performed by `save_user_favorites`:
`users = obj.get("users", {}); users[username] = sorted(list(favs));
obj["users"] = users`.  `Option.none` models a raised exception (non-dict
document or non-dict `users` entry). -/
def updateDoc (obj0 : Option JVal) (username : String) (favs : Finset String) :
    Option JVal :=
  let obj := obj0.getD usersEmpty
  match obj with
  | JVal.jobj fields =>
      match (alookup fields "users").getD (JVal.jobj []) with
      | JVal.jobj users =>
          some (JVal.jobj (aset fields "users"
            (JVal.jobj (aset users username
              (JVal.jarr ((sortedFavs favs).map JVal.jstr))))))
      | _ => Option.none
  | _ => Option.none

/-- `save_user_favorites` from pokemarket.py.  `ghw` is the observable PUT
outcome and `lerr` the local write exception, whichever backend is taken;
`Option.none` models a raised exception in the document update. -/
def save_user_favorites (cfg : GhConfig) (username : String) (favs : Finset String)
    (b : Backend) (ghw : GhPutResult) (lerr : Option String) (lf : LocalFile) :
    Option ((Bool × LocalFile) × List String) :=
  match updateDoc b.obj username favs with
  | Option.none => Option.none
  | some obj2 =>
      if b.name = "github" then
        let r := write_favorites_to_github cfg obj2 b.sha ghw
        some ((r.1, lf), r.2)
      else
        some (write_favorites_local obj2 lerr lf)

/-- Shape condition under which the document update cannot raise. -/
def usersShapeOk : Option JVal → Bool
  | Option.none => true
  | some (JVal.jobj fields) =>
      match alookup fields "users" with
      | Option.none => true
      | some (JVal.jobj _) => true
      | some _ => false
  | some _ => false

/-! ### Supporting lemmas for the parser claims -/

theorem takeWhile_digit_nil (l : List Char) (h : ∀ c ∈ l, c.isDigit = false) :
    l.takeWhile Char.isDigit = [] := by
  cases l with
  | nil => rfl
  | cons c rest => rw [List.takeWhile_cons, if_neg (by simp [h c (by simp)])]

theorem dropWhile_digit_id (l : List Char) (h : ∀ c ∈ l, c.isDigit = false) :
    l.dropWhile Char.isDigit = l := by
  cases l with
  | nil => rfl
  | cons c rest => rw [List.dropWhile_cons, if_neg (by simp [h c (by simp)])]

theorem matchNum_none_of_no_digit (cs : List Char)
    (h : ∀ c ∈ cs, c.isDigit = false) : matchNum cs = Option.none := by
  have hsub : ∀ c ∈ (splitSign cs).2, c.isDigit = false := by
    intro c hc
    apply h
    match cs with
    | [] => simpa [splitSign] using hc
    | c0 :: rest =>
        by_cases hc0 : c0 = '-' ∨ c0 = '+'
        · simp only [splitSign, if_pos hc0] at hc
          exact List.mem_cons_of_mem _ hc
        · simpa [splitSign, hc0] using hc
  rw [matchNum]
  rw [takeWhile_digit_nil _ hsub, dropWhile_digit_id _ hsub]
  match hs : (splitSign cs).2 with
  | [] => rfl
  | c :: s3 =>
      have hs3 : ∀ d ∈ s3, d.isDigit = false := by
        intro d hd
        exact hsub d (by rw [hs]; exact List.mem_cons_of_mem _ hd)
      rw [matchTail]
      by_cases hc : c = '.' ∨ c = ','
      · rw [if_pos hc, takeWhile_digit_nil _ hs3]
        simp
      · rw [if_neg hc]
        simp

theorem findTokens_nil_of_no_digit (cs : List Char)
    (h : ∀ c ∈ cs, c.isDigit = false) : findTokens cs = [] := by
  induction cs with
  | nil => rfl
  | cons c rest ih =>
      rw [findTokens_nomatch c rest (matchNum_none_of_no_digit _ h)]
      exact ih (fun d hd => h d (List.mem_cons_of_mem _ hd))

/-! ### Claim theorems -/

/-- C1: in the table produced by `load_all_data_dynamic`, the rows bearing
any identity key `k` are exactly the first row with key `k` in
concatenation order (file order given by the mapping, then row order
within each file): the first occurrence is retained with its field values
and every later duplicate is dropped. -/
theorem aggregate_dedup_first_wins (fs : List (String × ExcelFile))
    (expansions_map : List (String × String)) (k : String) :
    (load_all_data_dynamic fs expansions_map).1.filter (fun r => decide (r.cardKey = k)) =
      ((gatherFrames fs expansions_map).1.flatten.find?
        (fun r => decide (r.cardKey = k))).toList := by
  rw [load_all_data_dynamic]
  by_cases h : (gatherFrames fs expansions_map).1.isEmpty
  · have hnil : (gatherFrames fs expansions_map).1 = [] := by
      simpa using h
    simp [h, hnil]
  · simp only [if_neg h]
    rw [dedupByKey_filter]
    simp

/-- C5: `parse_price_list` is total (never raises): any all-non-digit
garbage string yields `[]`, null and NaN yield `[]`, and on the three
specification examples it returns `[]`, `[1.20, 1.35]` and `[2.5]`. -/
theorem parse_price_list_total_and_examples :
    (∀ s : String, (∀ c ∈ s.toList, c.isDigit = false) →
        parse_price_list (PyVal.str s) = []) ∧
      parse_price_list PyVal.none = [] ∧
      parse_price_list PyVal.nan = [] ∧
      parse_price_list (PyVal.str "n/a") = [] ∧
      parse_price_list (PyVal.str "1,20 - 1,35") = [(1.20 : ℚ), 1.35] ∧
      parse_price_list (PyVal.list [PyVal.none, PyVal.str "2.5", PyVal.str "x"]) =
        [(2.5 : ℚ)] := by
  refine ⟨?_, rfl, rfl, by decide, ?_, ?_⟩
  · intro s hs
    have hdef : parse_price_list (PyVal.str s) =
        (findTokens s.toList).filterMap (fun t => strToFloatChars (commaToDotL t)) := rfl
    rw [hdef, findTokens_nil_of_no_digit _ hs]
    rfl
  · have h : parse_price_list (PyVal.str "1,20 - 1,35") = [mkRat 6 5, mkRat 27 20] := by
      decide
    rw [h]
    norm_num [Rat.mkRat_eq_div]
  · have h : parse_price_list (PyVal.list [PyVal.none, PyVal.str "2.5", PyVal.str "x"]) =
        [mkRat 5 2] := by
      decide
    rw [h]
    norm_num [Rat.mkRat_eq_div]

/-- Witness for C5: the garbage clause discharged at the concrete string
"abc" together with the null clause. -/
theorem parse_price_list_total_and_examples_witness :
    parse_price_list (PyVal.str "abc") = [] ∧ parse_price_list PyVal.none = [] :=
  ⟨parse_price_list_total_and_examples.1 "abc" (by decide),
    parse_price_list_total_and_examples.2.1⟩

/-- C6: discovering a directory holding exactly
`prezzi_pokemon_Paradox-Rift.xlsx` and `df_prezzi151-x.xlsx` derives the
labels "Paradox Rift" and "151"; the override table substitutes the first
(and maps "151" to itself), so the returned mapping carries the localized
"Paradosso Temporale" and "151", and the change signature has the two
(filename, size) entries with non-negative sizes. -/
theorem discover_two_files (a b : Nat) :
    rawLabel "prezzi_pokemon_Paradox-Rift.xlsx" = "Paradox Rift" ∧
    rawLabel "df_prezzi151-x.xlsx" = "151" ∧
    alookup EXPANSION_NAME_OVERRIDES "Paradox Rift" = some "Paradosso Temporale" ∧
    alookup EXPANSION_NAME_OVERRIDES "151" = some "151" ∧
    discover_expansions (DirState.present
      [("prezzi_pokemon_Paradox-Rift.xlsx", some a), ("df_prezzi151-x.xlsx", some b)]) =
      ([("df_prezzi151-x.xlsx", "151"),
        ("prezzi_pokemon_Paradox-Rift.xlsx", "Paradosso Temporale")],
       ["df_prezzi151-x.xlsx", "prezzi_pokemon_Paradox-Rift.xlsx"],
       [("df_prezzi151-x.xlsx", (b : Int)), ("prezzi_pokemon_Paradox-Rift.xlsx", (a : Int))]) ∧
    (0 : Int) ≤ (b : Int) ∧ (0 : Int) ≤ (a : Int) := by
  refine ⟨by decide, by decide, by decide, by decide, ?_, Int.ofNat_nonneg b,
    Int.ofNat_nonneg a⟩
  have hm : sortStrings (List.filter endsWithXlsx
      ["prezzi_pokemon_Paradox-Rift.xlsx", "df_prezzi151-x.xlsx"]) =
      ["df_prezzi151-x.xlsx", "prezzi_pokemon_Paradox-Rift.xlsx"] := by decide
  have h1 : prettify_expansion_label "prezzi_pokemon_Paradox-Rift.xlsx" =
      "Paradosso Temporale" := by decide
  have h2 : prettify_expansion_label "df_prezzi151-x.xlsx" = "151" := by decide
  simp only [discover_expansions, List.map_cons, hm, List.map_nil, h1, h2]
  simp [alookup]

/-- C9: discovery on a missing directory returns the empty mapping, empty
file list and empty signature without raising. -/
theorem discover_missing_dir : discover_expansions DirState.absent = ([], [], []) := rfl

/-- A value of the shape `{"users": {...}}`. -/
def isWellFormedDoc (v : JVal) : Prop :=
  ∃ fields users, v = JVal.jobj fields ∧ alookup fields "users" = some (JVal.jobj users)

/-- C10 counterexample: a readable local file holding the valid JSON `[]`
is returned as-is by `read_favorites_local`, which is not a well-formed
favorites document — the claim that it "always returns a well-formed
document" fails. -/
theorem read_favorites_local_array_counterexample :
    read_favorites_local (LocalFile.valid (JVal.jarr [])) = JVal.jarr [] ∧
      ¬ isWellFormedDoc (JVal.jarr []) := by
  refine ⟨rfl, ?_⟩
  rintro ⟨fields, users, hf, -⟩
  exact absurd hf (by simp)

/-- C10 (amended): `read_favorites_local` is total and returns the empty
document `{"users": {}}` exactly when the file is missing, unreadable or
not valid JSON; any parsed JSON value is returned unchanged, whether or
not it has the document shape. -/
theorem read_favorites_local_fallback :
    read_favorites_local LocalFile.missing = usersEmpty ∧
    read_favorites_local LocalFile.unreadable = usersEmpty ∧
    read_favorites_local LocalFile.malformed = usersEmpty ∧
    isWellFormedDoc usersEmpty ∧
    (∀ v : JVal, read_favorites_local (LocalFile.valid v) = v) :=
  ⟨rfl, rfl, rfl, ⟨[("users", JVal.jobj [])], [], rfl, rfl⟩, fun _ => rfl⟩

/-- A GitHub read outcome that is neither success nor not-found: a network
error, or a response with a status other than 200 and 404. -/
def ghHardFailure : GhGetResult → Bool
  | GhGetResult.netError _ => true
  | GhGetResult.response status _ _ _ => !(status == 200) && !(status == 404)

/-- C2 counterexample: with the remote backend configured and the read
failing with status 500, `load_user_favorites` does not return a null
result — it silently returns the local-file backend's content (backend
name "local", favorites read from the local file). -/
theorem gh_read_failure_counterexample :
    (load_user_favorites "alice"
        ⟨some "tok", some "owner/repo", "main", "data/favorites.json"⟩
        (GhGetResult.response 500 Option.none "" "server error")
        (LocalFile.valid (JVal.jobj [("users",
          JVal.jobj [("alice", JVal.jarr [JVal.jstr "k1"])])]))).1 =
      some ({"k1"},
        ⟨"local", some (JVal.jobj [("users",
          JVal.jobj [("alice", JVal.jarr [JVal.jstr "k1"])])]), Option.none⟩) ∧
    ghConfigured ⟨some "tok", some "owner/repo", "main", "data/favorites.json"⟩ = true := by
  constructor
  · have h : (load_user_favorites "alice"
        ⟨some "tok", some "owner/repo", "main", "data/favorites.json"⟩
        (GhGetResult.response 500 Option.none "" "server error")
        (LocalFile.valid (JVal.jobj [("users",
          JVal.jobj [("alice", JVal.jarr [JVal.jstr "k1"])])]))).1 =
      some (["k1"].toFinset,
        ⟨"local", some (JVal.jobj [("users",
          JVal.jobj [("alice", JVal.jarr [JVal.jstr "k1"])])]), Option.none⟩) := rfl
    rw [h]
    rfl
  · rfl

/-- C2 (amended): when the remote backend is configured and the read fails
with a network error or any status other than 200/404, the helper
`read_favorites_from_github` does surface a warning and return a null
result, but `load_user_favorites` then silently falls back to the
local-file backend: its result is identical to the one produced when no
remote backend is configured at all. -/
theorem gh_read_failure_falls_back_to_local (u : String) (cfg cfg0 : GhConfig)
    (w : GhGetResult) (lf : LocalFile)
    (hcfg : ghConfigured cfg = true) (hw : ghHardFailure w = true)
    (hcfg0 : ghConfigured cfg0 = false) :
    (read_favorites_from_github cfg w).1 = (Option.none, Option.none) ∧
    (read_favorites_from_github cfg w).2 ≠ [] ∧
    (load_user_favorites u cfg w lf).1 = (load_user_favorites u cfg0 w lf).1 := by
  have hread : (read_favorites_from_github cfg w).1 = (Option.none, Option.none) ∧
      (read_favorites_from_github cfg w).2 ≠ [] := by
    rw [read_favorites_from_github.eq_def]
    rw [hcfg]
    simp only [Bool.true_eq_false, if_false]
    match w with
    | GhGetResult.netError msg => simp
    | GhGetResult.response status decoded sha text =>
        rw [ghHardFailure] at hw
        have h200 : ¬ status = 200 := by
          intro hh; rw [hh] at hw; simp at hw
        have h404 : ¬ status = 404 := by
          intro hh; rw [hh] at hw; simp at hw
        simp [h200, h404]
  have hread0 : (read_favorites_from_github cfg0 w).1 = (Option.none, Option.none) := by
    rw [read_favorites_from_github.eq_def, hcfg0]
    simp
  refine ⟨hread.1, hread.2, ?_⟩
  rw [load_user_favorites, load_user_favorites, hread.1, hread0]

/-- Witness for C2's amended theorem at a concrete configuration, status
500 response and local file. -/
theorem gh_read_failure_falls_back_to_local_witness :
    (read_favorites_from_github
        ⟨some "tok", some "owner/repo", "main", "data/favorites.json"⟩
        (GhGetResult.response 500 Option.none "" "boom")).1 =
      (Option.none, Option.none) ∧
    (read_favorites_from_github
        ⟨some "tok", some "owner/repo", "main", "data/favorites.json"⟩
        (GhGetResult.response 500 Option.none "" "boom")).2 ≠ [] ∧
    (load_user_favorites "bob"
        ⟨some "tok", some "owner/repo", "main", "data/favorites.json"⟩
        (GhGetResult.response 500 Option.none "" "boom") LocalFile.missing).1 =
      (load_user_favorites "bob"
        ⟨Option.none, Option.none, "main", "data/favorites.json"⟩
        (GhGetResult.response 500 Option.none "" "boom") LocalFile.missing).1 :=
  gh_read_failure_falls_back_to_local "bob"
    ⟨some "tok", some "owner/repo", "main", "data/favorites.json"⟩
    ⟨Option.none, Option.none, "main", "data/favorites.json"⟩
    (GhGetResult.response 500 Option.none "" "boom") LocalFile.missing
    (by decide) (by decide) (by decide)

theorem strList_map_jstr (l : List String) : strList (l.map JVal.jstr) = some l := by
  induction l with
  | nil => rfl
  | cons a t ih => rw [List.map_cons, strList, ih]; rfl

theorem setOfJVal_strings (l : List String) :
    setOfJVal (JVal.jarr (l.map JVal.jstr)) = some l.toFinset := by
  rw [setOfJVal, strList_map_jstr]
  rfl

theorem toFinset_sortedFavs (S : Finset String) : (sortedFavs S).toFinset = S := by
  ext x
  simp [sortedFavs, Finset.mem_sort]

theorem updateDoc_some (obj0 : Option JVal) (u : String) (S : Finset String)
    (h : usersShapeOk obj0 = true) :
    ∃ fields users, obj0.getD usersEmpty = JVal.jobj fields ∧
      (alookup fields "users").getD (JVal.jobj []) = JVal.jobj users ∧
      updateDoc obj0 u S = some (JVal.jobj (aset fields "users" (JVal.jobj
        (aset users u (JVal.jarr ((sortedFavs S).map JVal.jstr)))))) := by
  cases obj0 with
  | none => exact ⟨[("users", JVal.jobj [])], [], rfl, rfl, rfl⟩
  | some v =>
      cases v with
      | jobj fields =>
          cases hu : alookup fields "users" with
          | none =>
              refine ⟨fields, [], rfl, by simp [hu], ?_⟩
              rw [updateDoc]
              simp only [Option.getD_some, hu]
              rfl
          | some uv =>
              cases uv with
              | jobj users =>
                  refine ⟨fields, users, rfl, by simp [hu], ?_⟩
                  rw [updateDoc]
                  simp only [Option.getD_some, hu]
              | jnull => simp [usersShapeOk, hu] at h
              | jbool x => simp [usersShapeOk, hu] at h
              | jnum x => simp [usersShapeOk, hu] at h
              | jstr x => simp [usersShapeOk, hu] at h
              | jarr x => simp [usersShapeOk, hu] at h
      | jnull => simp [usersShapeOk] at h
      | jbool x => simp [usersShapeOk] at h
      | jnum x => simp [usersShapeOk] at h
      | jstr x => simp [usersShapeOk] at h
      | jarr x => simp [usersShapeOk] at h

/-- C4: `save_user_favorites`' in-memory merge fully replaces the target
user's entry in the users mapping with the sorted list of the new set and
leaves every other username's entry unchanged. -/
theorem save_replaces_only_target_user (fields users : List (String × JVal))
    (u : String) (S : Finset String)
    (h : alookup fields "users" = some (JVal.jobj users)) :
    updateDoc (some (JVal.jobj fields)) u S =
      some (JVal.jobj (aset fields "users" (JVal.jobj
        (aset users u (JVal.jarr ((sortedFavs S).map JVal.jstr)))))) ∧
    alookup (aset users u (JVal.jarr ((sortedFavs S).map JVal.jstr))) u =
      some (JVal.jarr ((sortedFavs S).map JVal.jstr)) ∧
    (∀ u2, u2 ≠ u →
      alookup (aset users u (JVal.jarr ((sortedFavs S).map JVal.jstr))) u2 =
        alookup users u2) := by
  refine ⟨?_, alookup_aset_self _ _ _, fun u2 h2 => alookup_aset_ne _ _ _ _ h2⟩
  rw [updateDoc]
  simp only [Option.getD_some, h]

/-- Witness for C4: a document holding users "carol" and "dave"; saving
for "dave" rewrites only "dave"'s entry and "carol"'s lookup is untouched. -/
theorem save_replaces_only_target_user_witness :
    updateDoc (some (JVal.jobj [("users", JVal.jobj
        [("carol", JVal.jarr []), ("dave", JVal.jarr [JVal.jstr "old"])])])) "dave" {"k9"} =
      some (JVal.jobj (aset [("users", JVal.jobj
        [("carol", JVal.jarr []), ("dave", JVal.jarr [JVal.jstr "old"])])] "users" (JVal.jobj
        (aset [("carol", JVal.jarr []), ("dave", JVal.jarr [JVal.jstr "old"])] "dave"
          (JVal.jarr ((sortedFavs {"k9"}).map JVal.jstr)))))) ∧
    alookup (aset [("carol", JVal.jarr []), ("dave", JVal.jarr [JVal.jstr "old"])] "dave"
        (JVal.jarr ((sortedFavs {"k9"}).map JVal.jstr))) "dave" =
      some (JVal.jarr ((sortedFavs {"k9"}).map JVal.jstr)) ∧
    (∀ u2, u2 ≠ "dave" →
      alookup (aset [("carol", JVal.jarr []), ("dave", JVal.jarr [JVal.jstr "old"])] "dave"
          (JVal.jarr ((sortedFavs {"k9"}).map JVal.jstr))) u2 =
        alookup [("carol", JVal.jarr []), ("dave", JVal.jarr [JVal.jstr "old"])] u2) :=
  save_replaces_only_target_user
    [("users", JVal.jobj [("carol", JVal.jarr []), ("dave", JVal.jarr [JVal.jstr "old"])])]
    [("carol", JVal.jarr []), ("dave", JVal.jarr [JVal.jstr "old"])] "dave" {"k9"}
    (by simp [alookup])

/-- C3: saving a favorites set through a non-github (local-file) backend
and then reading favorites for the same user with the remote backend
unconfigured (so the read goes to the same local file, with no intervening
writes) yields exactly the saved set. -/
theorem favorites_roundtrip (u : String) (S : Finset String) (b : Backend)
    (cfg cfg0 : GhConfig) (ghw : GhPutResult) (lf : LocalFile) (w0 : GhGetResult)
    (hb : ¬ b.name = "github") (hshape : usersShapeOk b.obj = true)
    (hcfg0 : ghConfigured cfg0 = false) :
    ∃ doc2 : JVal,
      save_user_favorites cfg u S b ghw Option.none lf =
        some ((true, LocalFile.valid doc2), []) ∧
      ((load_user_favorites u cfg0 w0 (LocalFile.valid doc2)).1).map Prod.fst = some S := by
  obtain ⟨fields, users, hobj, husers, hupd⟩ := updateDoc_some b.obj u S hshape
  refine ⟨JVal.jobj (aset fields "users" (JVal.jobj
    (aset users u (JVal.jarr ((sortedFavs S).map JVal.jstr))))), ?_, ?_⟩
  · rw [save_user_favorites, hupd]
    simp only [if_neg hb]
    rfl
  · have hgh : read_favorites_from_github cfg0 w0 = ((Option.none, Option.none), []) := by
      rw [read_favorites_from_github.eq_def, hcfg0]
      simp
    rw [load_user_favorites, hgh]
    simp only [read_favorites_local]
    rw [extractFavs]
    simp only [pyGet, alookup_aset_self, Option.getD_some]
    rw [setOfJVal_strings, toFinset_sortedFavs]
    rfl

/-- Witness for C3: round trip of the set containing "k1" and "k2" for
user "bob" through the local backend handle of a fresh session. -/
theorem favorites_roundtrip_witness :
    ∃ doc2 : JVal,
      save_user_favorites ⟨Option.none, Option.none, "main", "data/favorites.json"⟩
        "bob" ({"k1", "k2"} : Finset String) ⟨"local", Option.none, Option.none⟩
        (GhPutResult.netError "") Option.none LocalFile.missing =
        some ((true, LocalFile.valid doc2), []) ∧
      ((load_user_favorites "bob" ⟨Option.none, Option.none, "main", "data/favorites.json"⟩
        (GhGetResult.netError "") (LocalFile.valid doc2)).1).map Prod.fst =
        some ({"k1", "k2"} : Finset String) :=
  favorites_roundtrip "bob" {"k1", "k2"} ⟨"local", Option.none, Option.none⟩
    ⟨Option.none, Option.none, "main", "data/favorites.json"⟩
    ⟨Option.none, Option.none, "main", "data/favorites.json"⟩
    (GhPutResult.netError "") LocalFile.missing (GhGetResult.netError "")
    (by decide) (by decide) (by decide)

theorem range_map_getD {α : Type} (d : α) : ∀ l : List α,
    (List.range l.length).map (fun i => l.getD i d) = l := by
  intro l
  induction l with
  | nil => rfl
  | cons a t ih =>
      rw [List.length_cons, List.range_succ_eq_map, List.map_cons]
      congr 1
      rw [List.map_map]
      have hcomp : ((fun i => (a :: t).getD i d) ∘ (fun i => i + 1)) =
          (fun i => t.getD i d) := by
        funext i
        simp
      rw [hcomp, ih]

/-- C7: each canonical column absent from the source table is synthesized
with its default: card name falls back to the "Nome" column when present,
else the positional placeholder; the identifier defaults to
"label-index"; link and the price-list source default to the empty
string (so the parsed price list is empty); the average-price source
defaults to NaN (so the parsed average is missing). -/
theorem load_one_excel_defaults (df : DFrame) (esp : String) :
    (∀ nome, getCol df COL_CARD = Option.none → getCol df "Nome" = some nome →
        nome.length = df.nrows →
        (load_one_excel df esp).map (fun r => r.carta) = nome) ∧
    (getCol df COL_CARD = Option.none → getCol df "Nome" = Option.none →
        (load_one_excel df esp).map (fun r => r.carta) =
          (List.range df.nrows).map (fun i => PyVal.str ("Carta " ++ toString i))) ∧
    (getCol df COL_ID = Option.none →
        (load_one_excel df esp).map (fun r => r.idCompleto) =
          (List.range df.nrows).map (fun i => PyVal.str (esp ++ "-" ++ toString i))) ∧
    (getCol df COL_LINK = Option.none →
        (load_one_excel df esp).map (fun r => r.link) =
          List.replicate df.nrows (PyVal.str "")) ∧
    (getCol df COL_5P = Option.none →
        (load_one_excel df esp).map (fun r => r.primi5) =
            List.replicate df.nrows (PyVal.str "") ∧
          (load_one_excel df esp).map (fun r => r.prezziLista) =
            List.replicate df.nrows ([] : List ℚ)) ∧
    (getCol df COL_MED = Option.none →
        (load_one_excel df esp).map (fun r => r.media) =
          List.replicate df.nrows (Option.none : Option ℚ)) := by
  refine ⟨?_, ?_, ?_, ?_, ?_, ?_⟩
  · intro nome h1 h2 hlen
    have hmap : (load_one_excel df esp).map (fun r => r.carta) =
        (List.range df.nrows).map (fun i => nome.getD i PyVal.none) := by
      simp only [load_one_excel, h1, h2, Option.getD_none, Option.getD_some, List.map_map]
      rfl
    rw [hmap, ← hlen, range_map_getD]
  · intro h1 h2
    have hmap : (load_one_excel df esp).map (fun r => r.carta) =
        (List.range df.nrows).map (fun i =>
          ((List.range df.nrows).map (fun j => PyVal.str ("Carta " ++ toString j))).getD
            i PyVal.none) := by
      simp only [load_one_excel, h1, h2, Option.getD_none, List.map_map]
      rfl
    have hg := range_map_getD PyVal.none
      ((List.range df.nrows).map (fun j => PyVal.str ("Carta " ++ toString j)))
    rw [List.length_map, List.length_range] at hg
    rw [hmap, hg]
  · intro h1
    have hmap : (load_one_excel df esp).map (fun r => r.idCompleto) =
        (List.range df.nrows).map (fun i =>
          ((List.range df.nrows).map (fun j => PyVal.str (esp ++ "-" ++ toString j))).getD
            i PyVal.none) := by
      simp only [load_one_excel, h1, Option.getD_none, List.map_map]
      rfl
    have hg := range_map_getD PyVal.none
      ((List.range df.nrows).map (fun j => PyVal.str (esp ++ "-" ++ toString j)))
    rw [List.length_map, List.length_range] at hg
    rw [hmap, hg]
  · intro h1
    have hmap : (load_one_excel df esp).map (fun r => r.link) =
        (List.range df.nrows).map (fun i =>
          (List.replicate df.nrows (PyVal.str "")).getD i PyVal.none) := by
      simp only [load_one_excel, h1, Option.getD_none, List.map_map]
      rfl
    have hg := range_map_getD PyVal.none (List.replicate df.nrows (PyVal.str ""))
    rw [List.length_replicate] at hg
    rw [hmap, hg]
  · intro h1
    have hg := range_map_getD PyVal.none (List.replicate df.nrows (PyVal.str ""))
    rw [List.length_replicate] at hg
    constructor
    · have hmap : (load_one_excel df esp).map (fun r => r.primi5) =
          (List.range df.nrows).map (fun i =>
            (List.replicate df.nrows (PyVal.str "")).getD i PyVal.none) := by
        simp only [load_one_excel, h1, Option.getD_none, List.map_map]
        rfl
      rw [hmap, hg]
    · have hmap : (load_one_excel df esp).map (fun r => r.prezziLista) =
          ((List.range df.nrows).map (fun i =>
            (List.replicate df.nrows (PyVal.str "")).getD i PyVal.none)).map
              parse_price_list := by
        simp only [load_one_excel, h1, Option.getD_none, List.map_map]
        rfl
      rw [hmap, hg, List.map_replicate]
      rfl
  · intro h1
    have hg := range_map_getD PyVal.none (List.replicate df.nrows PyVal.nan)
    rw [List.length_replicate] at hg
    have hmap : (load_one_excel df esp).map (fun r => r.media) =
        ((List.range df.nrows).map (fun i =>
          (List.replicate df.nrows PyVal.nan).getD i PyVal.none)).map to_float := by
      simp only [load_one_excel, h1, Option.getD_none, List.map_map]
      rfl
    rw [hmap, hg, List.map_replicate]
    have hnan : to_float PyVal.nan = Option.none := by decide
    rw [hnan]

/-- Witness for C7: a one-row table with only a "Nome" column (card name
falls back to it), and a one-row table with no columns at all (every
default fires). -/
theorem load_one_excel_defaults_witness :
    (load_one_excel ⟨1, [("Nome", [PyVal.str "Pikachu"])]⟩ "X").map (fun r => r.carta) =
        [PyVal.str "Pikachu"] ∧
    (load_one_excel ⟨1, []⟩ "X").map (fun r => r.carta) =
        (List.range 1).map (fun i => PyVal.str ("Carta " ++ toString i)) ∧
    (load_one_excel ⟨1, []⟩ "X").map (fun r => r.idCompleto) =
        (List.range 1).map (fun i => PyVal.str ("X" ++ "-" ++ toString i)) ∧
    (load_one_excel ⟨1, []⟩ "X").map (fun r => r.link) = List.replicate 1 (PyVal.str "") ∧
    (load_one_excel ⟨1, []⟩ "X").map (fun r => r.primi5) = List.replicate 1 (PyVal.str "") ∧
    (load_one_excel ⟨1, []⟩ "X").map (fun r => r.prezziLista) =
        List.replicate 1 ([] : List ℚ) ∧
    (load_one_excel ⟨1, []⟩ "X").map (fun r => r.media) =
        List.replicate 1 (Option.none : Option ℚ) := by
  have h1 := load_one_excel_defaults ⟨1, [("Nome", [PyVal.str "Pikachu"])]⟩ "X"
  have h2 := load_one_excel_defaults ⟨1, []⟩ "X"
  have h5 := h2.2.2.2.2.1 rfl
  exact ⟨h1.1 [PyVal.str "Pikachu"] rfl rfl rfl, h2.2.1 rfl rfl, h2.2.2.1 rfl,
    h2.2.2.2.1 rfl, h5.1, h5.2, h2.2.2.2.2.2 rfl⟩

/-! ### Idempotence of `parse_price_list` on its own rendered output (C8) -/

theorem not_ws_of_digit (c : Char) (h : c.isDigit = true) : c.isWhitespace = false := by
  rw [Char.isWhitespace]
  have hsp : ¬ c = ' ' := fun hh => by subst hh; exact absurd h (by decide)
  have ht : ¬ c = '\t' := fun hh => by subst hh; exact absurd h (by decide)
  have hr : ¬ c = '\r' := fun hh => by subst hh; exact absurd h (by decide)
  have hn : ¬ c = '\n' := fun hh => by subst hh; exact absurd h (by decide)
  simp [hsp, ht, hr, hn]

theorem not_sign_of_digit (c : Char) (h : c.isDigit = true) :
    ¬ c = '-' ∧ ¬ c = '+' ∧ ¬ c = '.' ∧ ¬ c = ',' := by
  refine ⟨fun hh => ?_, fun hh => ?_, fun hh => ?_, fun hh => ?_⟩ <;>
    (subst hh; exact absurd h (by decide))

theorem takeWhile_digit_append (l1 l2 : List Char)
    (h1 : ∀ c ∈ l1, c.isDigit = true)
    (h2 : l2 = [] ∨ ∃ c r, l2 = c :: r ∧ c.isDigit = false) :
    (l1 ++ l2).takeWhile Char.isDigit = l1 ∧
      (l1 ++ l2).dropWhile Char.isDigit = l2 := by
  induction l1 with
  | nil =>
      rcases h2 with h2 | ⟨c, r, hcr, hc⟩
      · subst h2; exact ⟨rfl, rfl⟩
      · subst hcr
        constructor
        · rw [List.nil_append, List.takeWhile_cons, if_neg (by simp [hc])]
        · rw [List.nil_append, List.dropWhile_cons, if_neg (by simp [hc])]
  | cons a t ih =>
      have ha : a.isDigit = true := h1 a (by simp)
      obtain ⟨iht, ihd⟩ := ih (fun c hc => h1 c (List.mem_cons_of_mem _ hc))
      constructor
      · rw [List.cons_append, List.takeWhile_cons, if_pos (by simp [ha]), iht]
      · rw [List.cons_append, List.dropWhile_cons, if_pos (by simp [ha])]
        exact ihd

/-- A rational whose denominator divides a power of ten (every value the
parser can produce). -/
def DecDen (q : ℚ) : Prop := ∃ k : ℕ, q.den ∣ 10 ^ k

theorem mkRat_decDen (n : Int) (k : Nat) : DecDen (mkRat n (10 ^ k)) := by
  refine ⟨k, ?_⟩
  have h := Rat.den_dvd n (((10 ^ k : ℕ) : ℤ))
  rw [← Rat.mkRat_eq_divInt] at h
  exact_mod_cast h

theorem strToFloatChars_decDen (cs : List Char) (q : ℚ)
    (h : strToFloatChars cs = some q) : DecDen q := by
  rw [strToFloatChars] at h
  dsimp only at h
  split at h
  · exact absurd h (by simp)
  · split at h
    · injection h with h2
      rw [← h2]
      exact mkRat_decDen _ _
    · split at h
      · split at h
        · exact absurd h (by simp)
        · split at h
          · injection h with h2
            rw [← h2, ← pow_add]
            exact mkRat_decDen _ _
          · injection h with h2
            rw [← h2]
            exact mkRat_decDen _ _
      · exact absurd h (by simp)

theorem dvd_ten_pow_self (d k : Nat) (h : d ∣ 10 ^ k) : d ∣ 10 ^ d := by
  have h25 : d ∣ 2 ^ k * 5 ^ k := by
    have : (2 : ℕ) ^ k * 5 ^ k = 10 ^ k := by
      rw [← Nat.mul_pow]
    rw [this]
    exact h
  obtain ⟨d1, d2, hd1, hd2, hd⟩ := exists_dvd_and_dvd_of_dvd_mul h25
  obtain ⟨a, ha, rfl⟩ := (Nat.dvd_prime_pow Nat.prime_two).mp hd1
  obtain ⟨b, hb, rfl⟩ := (Nat.dvd_prime_pow (by norm_num)).mp hd2
  subst hd
  have hpos5 : 0 < 5 ^ b := by positivity
  have hpos2 : 0 < 2 ^ a := by positivity
  have ha2 : a ≤ 2 ^ a * 5 ^ b := by
    have h1 : a < 2 ^ a := Nat.lt_two_pow a
    calc a ≤ 2 ^ a := Nat.le_of_lt h1
      _ ≤ 2 ^ a * 5 ^ b := Nat.le_mul_of_pos_right _ hpos5
  have hb2 : b ≤ 2 ^ a * 5 ^ b := by
    have h1 : b < 2 ^ b := Nat.lt_two_pow b
    have h2 : (2 : ℕ) ^ b ≤ 5 ^ b := Nat.pow_le_pow_left (by norm_num) b
    calc b ≤ 5 ^ b := Nat.le_of_lt (lt_of_lt_of_le h1 h2)
      _ ≤ 2 ^ a * 5 ^ b := Nat.le_mul_of_pos_left _ hpos2
  have hsplit : (10 : ℕ) ^ (2 ^ a * 5 ^ b) = 2 ^ (2 ^ a * 5 ^ b) * 5 ^ (2 ^ a * 5 ^ b) := by
    rw [← Nat.mul_pow]
  rw [hsplit]
  exact mul_dvd_mul (pow_dvd_pow 2 ha2) (pow_dvd_pow 5 hb2)

/-- `strToFloatChars` on a plain signed decimal `[-]ints.frs`. -/
theorem strToFloatChars_decimal (sgnneg : Bool) (ints frs : List Char)
    (hine : ints ≠ []) (hid : ∀ c ∈ ints, c.isDigit = true)
    (hfne : frs ≠ []) (hfd : ∀ c ∈ frs, c.isDigit = true) :
    strToFloatChars ((if sgnneg then ['-'] else []) ++ (ints ++ '.' :: frs)) =
      some (mkRat (signedVal sgnneg (digitsVal ints * 10 ^ frs.length + digitsVal frs))
        (10 ^ frs.length)) := by
  have hnws : ∀ c ∈ (if sgnneg then ['-'] else []) ++ (ints ++ '.' :: frs),
      c.isWhitespace = false := by
    intro c hc
    rcases List.mem_append.mp hc with hc | hc
    · cases sgnneg
      · simp at hc
      · simp at hc
        subst hc
        decide
    · rcases List.mem_append.mp hc with hc | hc
      · exact not_ws_of_digit c (hid c hc)
      · rcases List.mem_cons.mp hc with hc | hc
        · subst hc; decide
        · exact not_ws_of_digit c (hfd c hc)
  have hsp : splitNegSign ((if sgnneg then ['-'] else []) ++ (ints ++ '.' :: frs)) =
      (sgnneg, ints ++ '.' :: frs) := by
    cases sgnneg
    · rw [if_neg (by simp)]
      cases hi : ints with
      | nil => exact absurd hi hine
      | cons c0 t =>
          have hc0 : c0.isDigit = true := hid c0 (by rw [hi]; simp)
          obtain ⟨hm1, hp1, -, -⟩ := not_sign_of_digit c0 hc0
          rw [List.nil_append]
          show splitNegSign (c0 :: (t ++ '.' :: frs)) = (false, c0 :: (t ++ '.' :: frs))
          rw [splitNegSign]
          rw [if_neg hm1, if_neg hp1]
    · rw [if_pos rfl, List.singleton_append, splitNegSign, if_pos rfl]
  have htd := takeWhile_digit_append ints ('.' :: frs) hid
    (Or.inr ⟨'.', frs, rfl, by decide⟩)
  have hfr : frs.takeWhile Char.isDigit = frs ∧ frs.dropWhile Char.isDigit = [] := by
    have := takeWhile_digit_append frs [] hfd (Or.inl rfl)
    simpa using this
  have hsf : splitFrac ('.' :: frs) = (frs, []) := by
    rw [splitFrac, if_pos rfl, hfr.1, hfr.2]
  rw [strToFloatChars]
  dsimp only
  rw [stripWS_of_no_ws _ hnws, hsp]
  dsimp only
  rw [htd.1, htd.2, hsf]
  dsimp only
  rw [if_neg (by simp [hine])]

theorem mkRat_of_decomposition (q : ℚ) (hdvd : q.den ∣ 10 ^ q.den) :
    ((q.num.natAbs * 10 ^ q.den / q.den : ℕ) : ℚ) / ((10 ^ q.den : ℕ) : ℚ) =
      (q.num.natAbs : ℚ) / (q.den : ℚ) := by
  have hm : (q.num.natAbs * 10 ^ q.den / q.den) * q.den = q.num.natAbs * 10 ^ q.den :=
    Nat.div_mul_cancel (Dvd.dvd.mul_left hdvd _)
  have hden : ((q.den : ℚ)) ≠ 0 := Nat.cast_ne_zero.mpr q.den_nz
  have hp : ((10 ^ q.den : ℕ) : ℚ) ≠ 0 := by positivity
  rw [div_eq_div_iff hp hden]
  exact_mod_cast hm

theorem strToFloat_renderQ (q : ℚ) (hq : DecDen q) :
    strToFloatChars (renderQChars q) = some q := by
  obtain ⟨j, hj⟩ := hq
  have hdvd : q.den ∣ 10 ^ q.den := dvd_ten_pow_self q.den j hj
  have hden0 : q.den ≠ 0 := q.den_nz
  have hkpos : 0 < (10 : ℕ) ^ q.den := by positivity
  obtain ⟨hiv, hine, hid⟩ :=
    natDigits_spec (q.num.natAbs * 10 ^ q.den / q.den / 10 ^ q.den)
  have hmod : q.num.natAbs * 10 ^ q.den / q.den % 10 ^ q.den < 10 ^ q.den :=
    Nat.mod_lt _ hkpos
  obtain ⟨hfv, hfl, hfd⟩ := padDigits_spec q.den _ hmod
  have hfne : padDigits q.den (q.num.natAbs * 10 ^ q.den / q.den % 10 ^ q.den) ≠ [] := by
    intro hh
    have hlen := congrArg List.length hh
    rw [hfl] at hlen
    exact hden0 (by simpa using hlen)
  have hn0 : digitsVal (natDigits (q.num.natAbs * 10 ^ q.den / q.den / 10 ^ q.den)) *
        10 ^ (padDigits q.den (q.num.natAbs * 10 ^ q.den / q.den % 10 ^ q.den)).length +
        digitsVal (padDigits q.den (q.num.natAbs * 10 ^ q.den / q.den % 10 ^ q.den)) =
      q.num.natAbs * 10 ^ q.den / q.den := by
    rw [hiv, hfl, hfv, Nat.mul_comm]
    exact Nat.div_add_mod _ _
  have hdec := mkRat_of_decomposition q hdvd
  by_cases hneg : q.num < 0
  · have hr : renderQChars q = (if true then ['-'] else []) ++
        (natDigits (q.num.natAbs * 10 ^ q.den / q.den / 10 ^ q.den) ++
          '.' :: padDigits q.den (q.num.natAbs * 10 ^ q.den / q.den % 10 ^ q.den)) := by
      rw [renderQChars]
      rw [if_pos hneg, if_pos rfl, List.append_assoc]
    rw [hr, strToFloatChars_decimal true _ _ hine hid hfne hfd, hn0, hfl]
    congr 1
    have hnum : (q.num.natAbs : ℚ) = -(q.num : ℚ) := by
      rw [Int.cast_natAbs, abs_of_neg hneg]
      push_cast
      ring
    rw [Rat.mkRat_eq_divInt, Rat.divInt_eq_div]
    have hsv : signedVal true (q.num.natAbs * 10 ^ q.den / q.den) =
        -((q.num.natAbs * 10 ^ q.den / q.den : ℕ) : ℤ) := rfl
    rw [hsv]
    simp only [Int.cast_neg, Int.cast_natCast]
    rw [neg_div, hdec, hnum, neg_div, neg_neg, Rat.num_div_den]
  · have hr : renderQChars q = (if false then ['-'] else []) ++
        (natDigits (q.num.natAbs * 10 ^ q.den / q.den / 10 ^ q.den) ++
          '.' :: padDigits q.den (q.num.natAbs * 10 ^ q.den / q.den % 10 ^ q.den)) := by
      rw [renderQChars]
      rw [if_neg hneg, if_neg (by simp), List.append_assoc]
    rw [hr, strToFloatChars_decimal false _ _ hine hid hfne hfd, hn0, hfl]
    congr 1
    have hnum : (q.num.natAbs : ℚ) = (q.num : ℚ) := by
      rw [Int.cast_natAbs, abs_of_nonneg (not_lt.mp hneg)]
    rw [Rat.mkRat_eq_divInt, Rat.divInt_eq_div]
    have hsv : signedVal false (q.num.natAbs * 10 ^ q.den / q.den) =
        ((q.num.natAbs * 10 ^ q.den / q.den : ℕ) : ℤ) := rfl
    rw [hsv]
    simp only [Int.cast_natCast]
    rw [hdec, hnum, Rat.num_div_den]

/-- The regex matches exactly a rendered signed decimal at the head when
the rest is empty or starts with the list separator. -/
theorem matchNum_decimal (sgnneg : Bool) (ints frs rest : List Char)
    (hine : ints ≠ []) (hid : ∀ c ∈ ints, c.isDigit = true)
    (hfne : frs ≠ []) (hfd : ∀ c ∈ frs, c.isDigit = true)
    (hrest : rest = [] ∨ ∃ r2, rest = ',' :: r2) :
    matchNum ((if sgnneg then ['-'] else []) ++ (ints ++ '.' :: (frs ++ rest))) =
      some ((if sgnneg then ['-'] else []) ++ (ints ++ '.' :: frs), rest) := by
  have hsp : splitSign ((if sgnneg then ['-'] else []) ++ (ints ++ '.' :: (frs ++ rest))) =
      ((if sgnneg then ['-'] else []), ints ++ '.' :: (frs ++ rest)) := by
    cases sgnneg
    · rw [if_neg (by simp)]
      cases hi : ints with
      | nil => exact absurd hi hine
      | cons c0 t =>
          have hc0 : c0.isDigit = true := hid c0 (by rw [hi]; simp)
          obtain ⟨hm1, hp1, -, -⟩ := not_sign_of_digit c0 hc0
          rw [List.nil_append]
          show splitSign (c0 :: (t ++ '.' :: (frs ++ rest))) =
            ([], c0 :: (t ++ '.' :: (frs ++ rest)))
          rw [splitSign, if_neg (by simp [hm1, hp1])]
    · rw [if_pos rfl, List.singleton_append, splitSign, if_pos (Or.inl rfl)]
  have htd := takeWhile_digit_append ints ('.' :: (frs ++ rest)) hid
    (Or.inr ⟨'.', frs ++ rest, rfl, by decide⟩)
  have hfr := takeWhile_digit_append frs rest hfd
    (by rcases hrest with h | ⟨r2, hr2⟩
        · exact Or.inl h
        · exact Or.inr ⟨',', r2, hr2, by decide⟩)
  rw [matchNum, hsp]
  dsimp only
  rw [htd.1, htd.2, matchTail]
  rw [if_pos (Or.inl rfl), hfr.1, hfr.2, if_neg hfne]
  rw [List.append_assoc]

theorem matchNum_comma (cs : List Char) (hc : cs = [] ∨ ∃ c r, cs = c :: r ∧ c.isDigit = false) :
    matchNum (',' :: cs) = Option.none := by
  have hsp : splitSign (',' :: cs) = ([], ',' :: cs) := by
    rw [splitSign, if_neg (by simp)]
  have htd := takeWhile_digit_append [] (',' :: cs) (by simp)
    (Or.inr ⟨',', cs, rfl, by decide⟩)
  rw [matchNum, hsp]
  dsimp only
  rw [show ([] : List Char) ++ ',' :: cs = ',' :: cs from rfl] at htd
  rw [htd.1, htd.2, matchTail, if_pos (Or.inr rfl)]
  have hfr := takeWhile_digit_append [] cs (by simp) hc
  rw [List.nil_append] at hfr
  rw [hfr.1]
  simp

theorem matchNum_space (cs : List Char) : matchNum (' ' :: cs) = Option.none := by
  have hsp : splitSign (' ' :: cs) = ([], ' ' :: cs) := by
    rw [splitSign, if_neg (by simp)]
  have htd := takeWhile_digit_append [] (' ' :: cs) (by simp)
    (Or.inr ⟨' ', cs, rfl, by decide⟩)
  rw [show ([] : List Char) ++ ' ' :: cs = ' ' :: cs from rfl] at htd
  rw [matchNum, hsp]
  dsimp only
  rw [htd.1, htd.2, matchTail, if_neg (by simp)]
  simp

theorem commaToDotL_id (cs : List Char) (h : ∀ c ∈ cs, ¬ c = ',') :
    commaToDotL cs = cs := by
  rw [commaToDotL]
  rw [List.map_congr_left (fun c hc => if_neg (h c hc))]
  exact List.map_id _

/-- The rendered characters of a rational: an optional minus sign, a
nonempty integer digit run, a dot and a nonempty fraction digit run. -/
theorem renderQChars_shape (q : ℚ) :
    ∃ (sgnneg : Bool) (ints frs : List Char),
      renderQChars q = (if sgnneg then ['-'] else []) ++ (ints ++ '.' :: frs) ∧
      ints ≠ [] ∧ (∀ c ∈ ints, c.isDigit = true) ∧
      frs ≠ [] ∧ (∀ c ∈ frs, c.isDigit = true) := by
  obtain ⟨-, hine, hid⟩ :=
    natDigits_spec (q.num.natAbs * 10 ^ q.den / q.den / 10 ^ q.den)
  have hmod : q.num.natAbs * 10 ^ q.den / q.den % 10 ^ q.den < 10 ^ q.den :=
    Nat.mod_lt _ (by positivity)
  obtain ⟨-, hfl, hfd⟩ := padDigits_spec q.den _ hmod
  have hfne : padDigits q.den (q.num.natAbs * 10 ^ q.den / q.den % 10 ^ q.den) ≠ [] := by
    intro hh
    have hlen := congrArg List.length hh
    rw [hfl] at hlen
    exact q.den_nz (by simpa using hlen)
  by_cases hneg : q.num < 0
  · refine ⟨true, _, _, ?_, hine, hid, hfne, hfd⟩
    rw [renderQChars, if_pos hneg, if_pos rfl, List.append_assoc]
  · refine ⟨false, _, _, ?_, hine, hid, hfne, hfd⟩
    rw [renderQChars, if_neg hneg, if_neg (by simp), List.append_assoc]

theorem renderQChars_no_comma (q : ℚ) : ∀ c ∈ renderQChars q, ¬ c = ',' := by
  obtain ⟨sgnneg, ints, frs, hshape, -, hid, -, hfd⟩ := renderQChars_shape q
  intro c hc
  rw [hshape] at hc
  rcases List.mem_append.mp hc with hc | hc
  · cases sgnneg
    · simp at hc
    · simp at hc
      subst hc
      decide
  · rcases List.mem_append.mp hc with hc | hc
    · exact (not_sign_of_digit c (hid c hc)).2.2.2
    · rcases List.mem_cons.mp hc with hc | hc
      · subst hc; decide
      · exact (not_sign_of_digit c (hfd c hc)).2.2.2

theorem strToList_append (a b : String) : (a ++ b).toList = a.toList ++ b.toList := rfl

theorem parse_render : ∀ l : List ℚ, (∀ q ∈ l, DecDen q) →
    parse_price_list (PyVal.str (renderList l)) = l := by
  intro l
  induction l with
  | nil => intro _; rfl
  | cons q rest ih =>
      intro h
      have hq : DecDen q := h q (by simp)
      obtain ⟨sgnneg, ints, frs, hshape, hine, hid, hfne, hfd⟩ := renderQChars_shape q
      have hsf : strToFloatChars (commaToDotL (renderQChars q)) = some q := by
        rw [commaToDotL_id _ (renderQChars_no_comma q)]
        exact strToFloat_renderQ q hq
      cases rest with
      | nil =>
          have hdef : parse_price_list (PyVal.str (renderQ q)) =
              (findTokens (renderQChars q)).filterMap
                (fun tk => strToFloatChars (commaToDotL tk)) := rfl
          have hmatch : matchNum (renderQChars q) = some (renderQChars q, []) := by
            have hmd := matchNum_decimal sgnneg ints frs [] hine hid hfne hfd (Or.inl rfl)
            rw [List.append_nil] at hmd
            rw [hshape]
            exact hmd
          rw [show renderList [q] = renderQ q from rfl, hdef,
            findTokens_match _ _ _ hmatch, findTokens_nil]
          simp only [List.filterMap_cons, List.filterMap_nil, hsf]
      | cons r t =>
          have hih := ih (fun x hx => h x (List.mem_cons_of_mem _ hx))
          have hchars : (renderList (q :: r :: t)).toList =
              renderQChars q ++ (',' :: ' ' :: (renderList (r :: t)).toList) := by
            show (renderQ q ++ ", " ++ renderList (r :: t)).toList = _
            rw [strToList_append, strToList_append]
            simp [renderQ]
          have hmatch : matchNum ((renderList (q :: r :: t)).toList) =
              some (renderQChars q, ',' :: ' ' :: (renderList (r :: t)).toList) := by
            rw [hchars, hshape]
            have hmd := matchNum_decimal sgnneg ints frs
              (',' :: ' ' :: (renderList (r :: t)).toList) hine hid hfne hfd
              (Or.inr ⟨_, rfl⟩)
            simp only [List.append_assoc, List.cons_append] at hmd ⊢
            exact hmd
          have hdef : parse_price_list (PyVal.str (renderList (q :: r :: t))) =
              (findTokens (renderList (q :: r :: t)).toList).filterMap
                (fun tk => strToFloatChars (commaToDotL tk)) := rfl
          have hdef2 : parse_price_list (PyVal.str (renderList (r :: t))) =
              (findTokens (renderList (r :: t)).toList).filterMap
                (fun tk => strToFloatChars (commaToDotL tk)) := rfl
          rw [hdef, findTokens_match _ _ _ hmatch,
            findTokens_nomatch _ _ (matchNum_comma _
              (Or.inr ⟨' ', (renderList (r :: t)).toList, rfl, by decide⟩)),
            findTokens_nomatch _ _ (matchNum_space _)]
          simp only [List.filterMap_cons, hsf]
          rw [hdef2] at hih
          rw [hih]

theorem parse_decDen (v : PyVal) : ∀ q ∈ parse_price_list v, DecDen q := by
  intro q hq
  cases v with
  | none => exact absurd hq (by simp [parse_price_list])
  | nan => exact absurd hq (by simp [parse_price_list])
  | list xs =>
      rw [parse_price_list] at hq
      obtain ⟨x, hx, hfx⟩ := List.mem_filterMap.mp hq
      cases x with
      | none => exact absurd hfx (by simp)
      | nan => exact strToFloatChars_decDen _ _ hfx
      | num q2 => exact strToFloatChars_decDen _ _ hfx
      | str s => exact strToFloatChars_decDen _ _ hfx
      | list ys => exact strToFloatChars_decDen _ _ hfx
  | num q2 =>
      have hdef : parse_price_list (PyVal.num q2) =
          (findTokens (pyStr (PyVal.num q2)).toList).filterMap
            (fun tk => strToFloatChars (commaToDotL tk)) := rfl
      rw [hdef] at hq
      obtain ⟨t, ht, hft⟩ := List.mem_filterMap.mp hq
      exact strToFloatChars_decDen _ _ hft
  | str s =>
      have hdef : parse_price_list (PyVal.str s) =
          (findTokens (pyStr (PyVal.str s)).toList).filterMap
            (fun tk => strToFloatChars (commaToDotL tk)) := rfl
      rw [hdef] at hq
      obtain ⟨t, ht, hft⟩ := List.mem_filterMap.mp hq
      exact strToFloatChars_decDen _ _ hft

/-- C8: `parse_price_list` is idempotent on its own output: rendering the
parsed float list back to its ", "-separated plain-decimal string form
(`.` as decimal separator) and parsing that string yields the same
sequence exactly (the model's rationals are exact, so "up to float
precision" is equality here). -/
theorem parse_price_list_idempotent (v : PyVal) :
    parse_price_list (PyVal.str (renderList (parse_price_list v))) = parse_price_list v :=
  parse_render (parse_price_list v) (parse_decDen v)
